import Mathlib

/-!
Shallow embedding of the resilient multi-endpoint audit fetcher of the
AuditFi reports page (`fetchAllChainAudits`, `getFilteredReports`).

The page iterates the configured chains; for each chain with a registry
contract address it runs up to `maxRetries` rounds over the ordered RPC
endpoint list, issuing a count query (10s timeout) and then a bulk fetch
(20s timeout) per endpoint. A successful bulk response is processed in
batches of 50 with a per-index bounds guard over the five parallel
arrays. Failed rounds are separated by an exponential backoff wait of
`baseDelay * 2 ^ retryCount` milliseconds. Results from all chains are
accumulated into one list and sorted by descending timestamp.

External RPC interaction is modelled by an `Oracle` giving, per
(chain, round, endpoint index), the outcome of the count query and of
the bulk fetch, together with their settle durations.
-/

/-- The `AuditReport` interface: one audit record shown in the table. -/
structure AuditReport where
  contractHash : String
  stars : Nat
  summary : String
  auditor : String
  timestamp : Int
  chain : String
deriving DecidableEq, Repr

/-- A bulk-fetch payload whose `contractHashes` field is an array: the
five parallel arrays destructured from `getAllAudits`. -/
structure BulkResult where
  contractHashes : List String
  stars : List Nat
  summaries : List String
  auditors : List String
  timestamps : List Int
deriving DecidableEq, Repr

/-- Outcome of the raced `getTotalContracts` call at one endpoint:
either a count, or any caught failure (timeout, 503, transport or other
thrown error — the catch handler advances to the next endpoint in every
such case). -/
inductive CountResult where
  | ok (n : Nat)
  | err
deriving DecidableEq, Repr

/-- Outcome of the raced `getAllAudits` call: a payload whose
`contractHashes` is an array, a malformed response (null result or
non-array `contractHashes`, which raises the format error), or any
other caught failure. -/
inductive BulkResponse where
  | ok (r : BulkResult)
  | malformed
  | err
deriving DecidableEq, Repr

/-- Environment of external responses: for each chain key, round and
endpoint index, the outcome and settle duration (ms) of the two calls. -/
structure Oracle where
  count : String → Nat → Nat → CountResult
  bulk : String → Nat → Nat → BulkResponse
  countDur : String → Nat → Nat → Nat
  bulkDur : String → Nat → Nat → Nat

def maxRetries : Nat := 3

/-- Base backoff delay in milliseconds. -/
def baseDelay : Nat := 2000

def batchSize : Nat := 50

/-- Timeout (ms) on the `getTotalContracts` race. -/
def countTimeout : Nat := 10000

/-- Timeout (ms) on the `getAllAudits` race. -/
def bulkTimeout : Nat := 20000

/-- The record pushed for index `i` of a bulk payload, guarded exactly as
in the source: the index must be in bounds of `stars`, `summaries`,
`auditors` and `timestamps` (it is in bounds of `contractHashes` at
every call site). No equal-length validation is performed. -/
def recordAt (ck : String) (r : BulkResult) (i : Nat) : Option AuditReport :=
  if i < r.stars.length ∧ i < r.summaries.length ∧
      i < r.auditors.length ∧ i < r.timestamps.length then
    some { contractHash := r.contractHashes.getD i ""
           stars := r.stars.getD i 0
           summary := r.summaries.getD i ""
           auditor := r.auditors.getD i ""
           timestamp := r.timestamps.getD i 0
           chain := ck }
  else none

/-- One batch of the processing loop: the records pushed while iterating
`contractHashes.slice(i, i + batchSize)` with actual index `i + idx`. -/
def processBatch (ck : String) (r : BulkResult) (i : Nat) : List AuditReport :=
  (List.range ((r.contractHashes.drop i).take batchSize).length).filterMap
    fun idx => recordAt ck r (i + idx)

/-- The batch loop `for (let i = 0; i < contractHashes.length; i += batchSize)`,
with fuel for termination (each step advances `i` by `batchSize ≥ 1`).
Returns the visited batch start offsets and the pushed records. -/
def chunkGo (ck : String) (r : BulkResult) : Nat → Nat → List Nat × List AuditReport
  | 0, _ => ([], [])
  | fuel + 1, i =>
    if i < r.contractHashes.length then
      let rest := chunkGo ck r fuel (i + batchSize)
      (i :: rest.1, processBatch ck r i ++ rest.2)
    else ([], [])

/-- Batch starts and records of processing one bulk payload. -/
def processChunks (ck : String) (r : BulkResult) : List Nat × List AuditReport :=
  chunkGo ck r r.contractHashes.length 0

/-- The records pushed while processing one bulk payload. -/
def processResult (ck : String) (r : BulkResult) : List AuditReport :=
  (processChunks ck r).2

/-- Batch start offsets as a function of the payload length alone. -/
def chunkStartsFrom (len : Nat) : Nat → Nat → List Nat
  | 0, _ => []
  | fuel + 1, i => if i < len then i :: chunkStartsFrom len fuel (i + batchSize) else []

def chunkStarts (len : Nat) : List Nat :=
  chunkStartsFrom len len 0

/-- Result of one round over a suffix of the endpoint index list:
`result` is `some recs` when some endpoint succeeded (`recs` empty for a
zero count), `attempts` the endpoint indices tried in order, and
`bulkCalls` the endpoints where a bulk fetch was issued. -/
structure RoundResult where
  result : Option (List AuditReport)
  attempts : List Nat
  bulkCalls : List Nat
deriving DecidableEq, Repr

/-- One pass of `for (const rpcUrl of chainData.rpcUrls)`: endpoints are
tried strictly in order; a count error or failed/malformed bulk fetch
falls through to the next endpoint; a zero count succeeds with no bulk
fetch; a bulk payload succeeds with its processed records. -/
def tryRound (o : Oracle) (ck : String) (round : Nat) : List Nat → RoundResult
  | [] => ⟨none, [], []⟩
  | e :: rest =>
    match o.count ck round e with
    | .err =>
      let rr := tryRound o ck round rest
      ⟨rr.result, e :: rr.attempts, rr.bulkCalls⟩
    | .ok 0 => ⟨some [], [e], []⟩
    | .ok (_ + 1) =>
      match o.bulk ck round e with
      | .ok r => ⟨some (processResult ck r), [e], [e]⟩
      | _ =>
        let rr := tryRound o ck round rest
        ⟨rr.result, e :: rr.attempts, e :: rr.bulkCalls⟩

/-- Trace of the per-chain fetch: the chain's contribution, every
(round, endpoint) attempt in chronological order, the attempts that
issued a bulk fetch, the backoff delays (ms) in order, and whether the
chain succeeded. -/
structure FetchTrace where
  records : List AuditReport
  attempts : List (Nat × Nat)
  bulkCalls : List (Nat × Nat)
  delays : List Nat
  success : Bool
deriving DecidableEq, Repr

/-- The `while (!success && retryCount < maxRetries)` loop, with fuel
`maxRetries - retryCount`. After a failed round the counter is
incremented and, when it is still below `maxRetries`, a backoff wait of
`baseDelay * 2 ^ retryCount` is taken before the next round. -/
def fetchRounds (o : Oracle) (ck : String) (numUrls : Nat) : Nat → Nat → FetchTrace
  | _, 0 => ⟨[], [], [], [], false⟩
  | rc, fuel + 1 =>
    let rr := tryRound o ck rc (List.range numUrls)
    match rr.result with
    | some recs =>
      ⟨recs, rr.attempts.map (Prod.mk rc), rr.bulkCalls.map (Prod.mk rc), [], true⟩
    | none =>
      if rc + 1 < maxRetries then
        let rest := fetchRounds o ck numUrls (rc + 1) fuel
        ⟨rest.records, rr.attempts.map (Prod.mk rc) ++ rest.attempts,
          rr.bulkCalls.map (Prod.mk rc) ++ rest.bulkCalls,
          baseDelay * 2 ^ (rc + 1) :: rest.delays, rest.success⟩
      else
        ⟨[], rr.attempts.map (Prod.mk rc), rr.bulkCalls.map (Prod.mk rc), [], false⟩

/-- The whole retry loop for one chain with `numUrls` RPC endpoints. -/
def fetchChain (o : Oracle) (ck : String) (numUrls : Nat) : FetchTrace :=
  fetchRounds o ck numUrls 0 maxRetries

/-- Static chain descriptor: the ordered RPC endpoint list
(display name, currency and explorer metadata play no role here). -/
structure ChainData where
  rpcUrls : List String
deriving DecidableEq, Repr

/-- The static configuration: the `CHAIN_CONFIG` entries in iteration
order and the `CONTRACT_ADDRESSES` table. -/
structure Config where
  chains : List (String × ChainData)
  addresses : String → Option String

/-- Per-chain trace inside the aggregation loop: a chain without a
contract address is skipped outright (`continue`). -/
def chainTrace (cfg : Config) (o : Oracle) (e : String × ChainData) : FetchTrace :=
  match cfg.addresses e.1 with
  | none => ⟨[], [], [], [], false⟩
  | some _ => fetchChain o e.1 e.2.rpcUrls.length

/-- The per-chain contributions to `allAudits`, in chain order. -/
def contributions (cfg : Config) (o : Oracle) : List (List AuditReport) :=
  cfg.chains.map fun e => (chainTrace cfg o e).records

/-- Descending-timestamp order used by the final sort comparator
`(a, b) => b.timestamp - a.timestamp`. -/
def auditGe (a b : AuditReport) : Prop :=
  b.timestamp ≤ a.timestamp

instance : DecidableRel auditGe :=
  fun a b => inferInstanceAs (Decidable (b.timestamp ≤ a.timestamp))

instance : IsTotal AuditReport auditGe :=
  ⟨fun a b => le_total b.timestamp a.timestamp⟩

instance : IsTrans AuditReport auditGe :=
  ⟨fun _ _ _ hab hbc => le_trans hbc hab⟩

def sortAudits (l : List AuditReport) : List AuditReport :=
  List.insertionSort auditGe l

/-- `fetchAllChainAudits`: accumulate every chain's contribution into
`allAudits`, then sort by descending timestamp. Always yields a list. -/
def fetchAllChainAudits (cfg : Config) (o : Oracle) : List AuditReport :=
  sortAudits (contributions cfg o).flatten

/-- Network time of one endpoint attempt: each raced call settles no
later than its timeout; the bulk call is only issued after a positive
count. -/
def attemptNetworkTime (o : Oracle) (ck : String) (round ep : Nat) : Nat :=
  min (o.countDur ck round ep) countTimeout +
    match o.count ck round ep with
    | .ok (_ + 1) => min (o.bulkDur ck round ep) bulkTimeout
    | _ => 0

/-- Character-list version of a substring test. -/
def subAt : List Char → List Char → Bool
  | [], _ => true
  | _ :: _, [] => false
  | a :: as, b :: bs => a == b && subAt as bs

def containsSub (pat : List Char) : List Char → Bool
  | [] => subAt pat []
  | b :: bs => subAt pat (b :: bs) || containsSub pat bs

/-- `String.prototype.includes`: `strContains s pat` is true when `pat`
occurs contiguously in `s`. -/
def strContains (s pat : String) : Bool :=
  containsSub pat.toList s.toList

inductive DateRange where
  | all
  | day
  | week
  | month
deriving DecidableEq, Repr

/-- The `FilterState` of the reports page. -/
structure FilterState where
  search : String
  chain : String
  dateRange : DateRange
  minStars : Nat
deriving DecidableEq, Repr

/-- `String.prototype.toLowerCase`, as a per-character map over the
string's characters. -/
def toLowerStr (s : String) : String :=
  ⟨s.data.map Char.toLower⟩

def rangeSecs : DateRange → Int
  | .day => 86400
  | .week => 604800
  | .month => 2592000
  | .all => 0

/-- The predicate of `getFilteredReports`, with `now = Date.now() / 1000`
passed explicitly. A non-empty search keeps a report when its contract
hash or its auditor contains the search text case-insensitively. -/
def keepReport (now : Int) (f : FilterState) (r : AuditReport) : Bool :=
  if f.search ≠ "" ∧ strContains (toLowerStr r.contractHash) (toLowerStr f.search) = false ∧
      strContains (toLowerStr r.auditor) (toLowerStr f.search) = false then false
  else if f.chain ≠ "all" ∧ r.chain ≠ f.chain then false
  else if 0 < f.minStars ∧ r.stars < f.minStars then false
  else if f.dateRange ≠ .all ∧ now - r.timestamp > rangeSecs f.dateRange then false
  else true

def getFilteredReports (now : Int) (f : FilterState) (reports : List AuditReport) :
    List AuditReport :=
  reports.filter (keepReport now f)

/-- Chronological order on (round, endpoint) attempt identifiers. -/
def attLt (a b : Nat × Nat) : Prop :=
  a.1 < b.1 ∨ (a.1 = b.1 ∧ a.2 < b.2)

/-- Two environments answer identically on one chain's endpoints. -/
def agreeOn (o o' : Oracle) (ck : String) : Prop :=
  ∀ rnd e, o.count ck rnd e = o'.count ck rnd e ∧ o.bulk ck rnd e = o'.bulk ck rnd e

/-! ## Concrete environments used to evaluate the development -/

/-- Environment in which every count query fails on every chain. -/
def oracleAllErr : Oracle :=
  ⟨fun _ _ _ => .err, fun _ _ _ => .err, fun _ _ _ => 0, fun _ _ _ => 0⟩

/-- A bulk payload whose five parallel arrays do not have equal length:
two contract hashes but a single entry in each other array. -/
def mismatchedBulk : BulkResult :=
  ⟨["h0", "h1"], [5], ["s"], ["a"], [7]⟩

/-- Environment answering every count query with 2 and every bulk fetch
with the mismatched payload. -/
def oracleMismatch : Oracle :=
  ⟨fun _ _ _ => .ok 2, fun _ _ _ => .ok mismatchedBulk, fun _ _ _ => 0, fun _ _ _ => 0⟩

/-- A bulk payload of 120 records with equal-length arrays. -/
def bulk120 : BulkResult :=
  ⟨List.replicate 120 "h", List.replicate 120 5, List.replicate 120 "s",
    List.replicate 120 "a", List.replicate 120 7⟩

/-- Environment answering every count query with 120 and every bulk
fetch with the 120-record payload. -/
def oracle120 : Oracle :=
  ⟨fun _ _ _ => .ok 120, fun _ _ _ => .ok bulk120, fun _ _ _ => 0, fun _ _ _ => 0⟩

/-- Environment answering every count query with zero. -/
def oracleZero : Oracle :=
  ⟨fun _ _ _ => .ok 0, fun _ _ _ => .err, fun _ _ _ => 0, fun _ _ _ => 0⟩

/-- Environment whose first endpoint fails its count query and whose
other endpoints answer zero. -/
def oracleZeroSecond : Oracle :=
  ⟨fun _ _ e => if e = 0 then .err else .ok 0, fun _ _ _ => .err,
    fun _ _ _ => 0, fun _ _ _ => 0⟩

/-- A two-chain configuration in which only the first chain has a
registry contract address. -/
def cfgTwo : Config :=
  ⟨[("monad", ⟨["u0"]⟩), ("devnet", ⟨["u0", "u1"]⟩)],
    fun k => if k = "monad" then some "0xRegistry" else none⟩

/-- A report whose contract hash contains the search text but whose
auditor does not. -/
def reportC8 : AuditReport :=
  ⟨"0xAbc123", 5, "sum", "0xBEEF", 100, "monad"⟩

/-- A search-only filter state. -/
def searchOnly (s : String) : FilterState :=
  ⟨s, "all", .all, 0⟩

/-! ## Foundational lemmas about the batch-processing loop -/

theorem chunkGo_fst (ck : String) (r : BulkResult) :
    ∀ fuel i, (chunkGo ck r fuel i).1 = chunkStartsFrom r.contractHashes.length fuel i := by
  intro fuel
  induction fuel with
  | zero => intro i; simp [chunkGo, chunkStartsFrom]
  | succ fuel ih =>
    intro i
    simp only [chunkGo, chunkStartsFrom]
    split
    · simp [ih]
    · rfl

theorem length_batch (r : BulkResult) (i : Nat) :
    ((r.contractHashes.drop i).take batchSize).length =
      min batchSize (r.contractHashes.length - i) := by
  simp [List.length_take, List.length_drop]

theorem chunkGo_snd (ck : String) (r : BulkResult) :
    ∀ fuel i, r.contractHashes.length ≤ i + fuel * batchSize →
      (chunkGo ck r fuel i).2 =
        (List.range (r.contractHashes.length - i)).filterMap
          (fun idx => recordAt ck r (i + idx)) := by
  intro fuel
  induction fuel with
  | zero =>
    intro i h
    simp only [Nat.zero_mul, Nat.add_zero] at h
    simp [chunkGo, Nat.sub_eq_zero_of_le h]
  | succ fuel ih =>
    intro i h
    rw [Nat.succ_mul] at h
    by_cases hi : i < r.contractHashes.length
    · simp only [chunkGo, if_pos hi]
      rw [ih (i + batchSize) (by omega)]
      simp only [processBatch, length_batch]
      by_cases hsmall : r.contractHashes.length - i ≤ batchSize
      · have h1 : min batchSize (r.contractHashes.length - i) =
            r.contractHashes.length - i := Nat.min_eq_right hsmall
        have h2 : r.contractHashes.length - (i + batchSize) = 0 := by omega
        rw [h1, h2]
        simp
      · have h1 : min batchSize (r.contractHashes.length - i) = batchSize :=
          Nat.min_eq_left (by omega)
        have h2 : r.contractHashes.length - i =
            batchSize + (r.contractHashes.length - (i + batchSize)) := by omega
        rw [h1, h2, List.range_add, List.filterMap_append, List.filterMap_map]
        congr 1
        apply List.filterMap_congr
        intro x _
        simp only [Function.comp]
        rw [Nat.add_assoc]
    · simp only [chunkGo, if_neg hi]
      have : r.contractHashes.length - i = 0 := by omega
      simp [this]

theorem processResult_eq (ck : String) (r : BulkResult) :
    processResult ck r =
      (List.range r.contractHashes.length).filterMap (recordAt ck r) := by
  have hb : r.contractHashes.length ≤ 0 + r.contractHashes.length * batchSize := by
    have : r.contractHashes.length * 1 ≤ r.contractHashes.length * batchSize :=
      Nat.mul_le_mul_left _ (by simp [batchSize])
    omega
  have := chunkGo_snd ck r r.contractHashes.length 0 hb
  simp only [processResult, processChunks, this, Nat.zero_add, Nat.sub_zero]

theorem processChunks_fst (ck : String) (r : BulkResult) :
    (processChunks ck r).1 = chunkStarts r.contractHashes.length := by
  simp [processChunks, chunkStarts, chunkGo_fst]

theorem recordAt_chain (ck : String) (r : BulkResult) (i : Nat) (rec : AuditReport)
    (h : recordAt ck r i = some rec) : rec.chain = ck := by
  unfold recordAt at h
  split at h
  · cases h
    rfl
  · cases h

theorem processResult_chain (ck : String) (r : BulkResult) (rec : AuditReport)
    (h : rec ∈ processResult ck r) : rec.chain = ck := by
  rw [processResult_eq] at h
  rcases List.mem_filterMap.mp h with ⟨i, _, hi⟩
  exact recordAt_chain ck r i rec hi

/-! ## Lemmas about one endpoint round -/

theorem tryRound_attempts_sublist (o : Oracle) (ck : String) (round : Nat) :
    ∀ eps : List Nat, (tryRound o ck round eps).attempts.Sublist eps := by
  intro eps
  induction eps with
  | nil => simp [tryRound]
  | cons e rest ih =>
    simp only [tryRound]
    cases o.count ck round e with
    | err => exact ih.cons₂ e
    | ok n =>
      cases n with
      | zero => simp
      | succ m =>
        cases o.bulk ck round e with
        | ok r => simp
        | malformed => exact ih.cons₂ e
        | err => exact ih.cons₂ e

theorem tryRound_records_chain (o : Oracle) (ck : String) (round : Nat) :
    ∀ (eps : List Nat) (recs : List AuditReport),
      (tryRound o ck round eps).result = some recs →
      ∀ rec ∈ recs, rec.chain = ck := by
  intro eps
  induction eps with
  | nil => intro recs h; simp [tryRound] at h
  | cons e rest ih =>
    intro recs
    simp only [tryRound]
    cases o.count ck round e with
    | err => exact ih recs
    | ok n =>
      cases n with
      | zero =>
        intro h
        simp at h
        subst h
        intro rec hrec
        simp at hrec
      | succ m =>
        cases o.bulk ck round e with
        | ok r =>
          intro h
          simp at h
          subst h
          intro rec hrec
          exact processResult_chain ck r rec hrec
        | malformed => exact ih recs
        | err => exact ih recs

theorem tryRound_congr (o o' : Oracle) (ck : String) (round : Nat)
    (h : ∀ e, o.count ck round e = o'.count ck round e ∧
      o.bulk ck round e = o'.bulk ck round e) :
    ∀ eps : List Nat, tryRound o ck round eps = tryRound o' ck round eps := by
  intro eps
  induction eps with
  | nil => rfl
  | cons e rest ih =>
    simp only [tryRound, (h e).1, (h e).2, ih]

/-! ## Lemmas about the retry loop -/

theorem fetchRounds_records_chain (o : Oracle) (ck : String) (u : Nat) :
    ∀ fuel rc, ∀ rec ∈ (fetchRounds o ck u rc fuel).records, rec.chain = ck := by
  intro fuel
  induction fuel with
  | zero => intro rc rec hrec; simp [fetchRounds] at hrec
  | succ fuel ih =>
    intro rc rec hrec
    simp only [fetchRounds] at hrec
    split at hrec
    · exact tryRound_records_chain o ck rc (List.range u) _ (by assumption) rec hrec
    · split at hrec
      · exact ih (rc + 1) rec hrec
      · simp at hrec

theorem fetchRounds_congr (o o' : Oracle) (ck : String) (u : Nat)
    (h : ∀ rnd e, o.count ck rnd e = o'.count ck rnd e ∧
      o.bulk ck rnd e = o'.bulk ck rnd e) :
    ∀ fuel rc, fetchRounds o ck u rc fuel = fetchRounds o' ck u rc fuel := by
  intro fuel
  induction fuel with
  | zero => intro rc; rfl
  | succ fuel ih =>
    intro rc
    simp only [fetchRounds, tryRound_congr o o' ck rc (fun e => h rc e) (List.range u), ih]

theorem fetchRounds_attempts_mem (o : Oracle) (ck : String) (u : Nat) :
    ∀ fuel rc, ∀ p ∈ (fetchRounds o ck u rc fuel).attempts,
      rc ≤ p.1 ∧ p.1 < rc + fuel ∧ p.2 < u := by
  intro fuel
  induction fuel with
  | zero => intro rc p hp; simp [fetchRounds] at hp
  | succ fuel ih =>
    intro rc p hp
    simp only [fetchRounds] at hp
    have hsub := tryRound_attempts_sublist o ck rc (List.range u)
    split at hp
    · simp only [List.mem_map] at hp
      obtain ⟨e, he, rfl⟩ := hp
      have := List.mem_range.mp (hsub.subset he)
      exact ⟨Nat.le_refl _, by omega, this⟩
    · split at hp
      · simp only [List.mem_append, List.mem_map] at hp
        rcases hp with ⟨e, he, rfl⟩ | hp
        · have := List.mem_range.mp (hsub.subset he)
          exact ⟨Nat.le_refl _, by omega, this⟩
        · have := ih (rc + 1) p hp
          exact ⟨by omega, by omega, this.2.2⟩
      · simp only [List.mem_map] at hp
        obtain ⟨e, he, rfl⟩ := hp
        have := List.mem_range.mp (hsub.subset he)
        exact ⟨Nat.le_refl _, by omega, this⟩

theorem fetchRounds_attempts_pairwise (o : Oracle) (ck : String) (u : Nat) :
    ∀ fuel rc, (fetchRounds o ck u rc fuel).attempts.Pairwise attLt := by
  intro fuel
  induction fuel with
  | zero => intro rc; simp [fetchRounds]
  | succ fuel ih =>
    intro rc
    simp only [fetchRounds]
    have hsub := tryRound_attempts_sublist o ck rc (List.range u)
    have hpw : (tryRound o ck rc (List.range u)).attempts.Pairwise (· < ·) :=
      List.Pairwise.sublist hsub (List.pairwise_lt_range u)
    have hmap : ((tryRound o ck rc (List.range u)).attempts.map (Prod.mk rc)).Pairwise attLt :=
      List.Pairwise.map _ (fun a b hab => Or.inr ⟨rfl, hab⟩) hpw
    split
    · exact hmap
    · split
      · rw [List.pairwise_append]
        refine ⟨hmap, ih (rc + 1), ?_⟩
        intro a ha b hb
        obtain ⟨e, _, rfl⟩ := List.mem_map.mp ha
        have hbm := fetchRounds_attempts_mem o ck u fuel (rc + 1) b hb
        exact Or.inl (by omega)
      · exact hmap

theorem fetchRounds_attempts_length (o : Oracle) (ck : String) (u : Nat) :
    ∀ fuel rc, (fetchRounds o ck u rc fuel).attempts.length ≤ fuel * u := by
  intro fuel
  induction fuel with
  | zero => intro rc; simp [fetchRounds]
  | succ fuel ih =>
    intro rc
    simp only [fetchRounds]
    have hsub := tryRound_attempts_sublist o ck rc (List.range u)
    have hlen : (tryRound o ck rc (List.range u)).attempts.length ≤ u := by
      have := hsub.length_le
      simpa using this
    rw [Nat.succ_mul]
    split
    · simp only [List.length_map]
      omega
    · split
      · simp only [List.length_append, List.length_map]
        have := ih (rc + 1)
        omega
      · simp only [List.length_map]
        omega

/-! ## Computation lemmas for specific response patterns -/

theorem tryRound_all_err (o : Oracle) (ck : String) (round : Nat)
    (h : ∀ e, o.count ck round e = .err) :
    ∀ eps, tryRound o ck round eps = ⟨none, eps, []⟩ := by
  intro eps
  induction eps with
  | nil => rfl
  | cons e rest ih => simp only [tryRound, h e, ih]

theorem tryRound_zero (o : Oracle) (ck : String) (round : Nat) :
    ∀ (xs : List Nat) (e : Nat) (ys : List Nat),
      (∀ x ∈ xs, o.count ck round x = .err) → o.count ck round e = .ok 0 →
      tryRound o ck round (xs ++ e :: ys) = ⟨some [], xs ++ [e], []⟩ := by
  intro xs
  induction xs with
  | nil =>
    intro e ys _ hc
    simp [tryRound, hc]
  | cons x xs ih =>
    intro e ys hxs hc
    simp only [List.cons_append, tryRound, hxs x (List.mem_cons_self x xs),
      List.append_eq, ih e ys (fun y hy => hxs y (List.mem_cons_of_mem x hy)) hc]

/-- When every count query of a chain fails, the loop runs rounds 0, 1, 2,
attempting every endpoint each round, with backoff waits after rounds 0 and 1
only, and contributes nothing. -/
theorem fetchChain_all_err (o : Oracle) (ck : String) (u : Nat)
    (h : ∀ rnd e, o.count ck rnd e = .err) :
    fetchChain o ck u =
      ⟨[], (List.range u).map (Prod.mk 0) ++
          ((List.range u).map (Prod.mk 1) ++ (List.range u).map (Prod.mk 2)),
        [], [baseDelay * 2, baseDelay * 4], false⟩ := by
  unfold fetchChain
  simp only [maxRetries]
  simp only [fetchRounds, tryRound_all_err o ck _ (h _) (List.range u)]
  norm_num [maxRetries]

/-- When the first endpoint's count query answers zero in round 0, the
chain succeeds immediately: empty contribution, a single attempt, no
bulk fetch, no backoff. -/
theorem fetchChain_first_zero (o : Oracle) (ck : String) (u : Nat)
    (hc : o.count ck 0 0 = .ok 0) :
    fetchChain o ck (u + 1) = ⟨[], [(0, 0)], [], [], true⟩ := by
  unfold fetchChain
  simp only [maxRetries]
  simp only [fetchRounds, List.range_succ_eq_map, tryRound, hc]
  simp

/-- When the first endpoint's count query answers a positive count and
its bulk fetch yields a payload in round 0, the chain succeeds with the
processed payload after that single attempt and no backoff. -/
theorem fetchChain_first_ok (o : Oracle) (ck : String) (u n : Nat) (r : BulkResult)
    (hc : o.count ck 0 0 = .ok (n + 1)) (hb : o.bulk ck 0 0 = .ok r) :
    fetchChain o ck (u + 1) = ⟨processResult ck r, [(0, 0)], [(0, 0)], [], true⟩ := by
  unfold fetchChain
  simp only [maxRetries]
  simp only [fetchRounds, List.range_succ_eq_map, tryRound, hc, hb]
  simp

/-! ## Aggregation lemmas -/

theorem sortAudits_sorted (l : List AuditReport) : (sortAudits l).Sorted auditGe :=
  List.sorted_insertionSort auditGe l

theorem sortAudits_perm (l : List AuditReport) : (sortAudits l).Perm l :=
  List.perm_insertionSort auditGe l

theorem mem_fetchAll_iff (cfg : Config) (o : Oracle) (rec : AuditReport) :
    rec ∈ fetchAllChainAudits cfg o ↔
      ∃ e ∈ cfg.chains, rec ∈ (chainTrace cfg o e).records := by
  unfold fetchAllChainAudits
  rw [(sortAudits_perm _).mem_iff, List.mem_flatten]
  simp only [contributions, List.mem_map]
  constructor
  · rintro ⟨l, ⟨e, he, rfl⟩, hrec⟩
    exact ⟨e, he, hrec⟩
  · rintro ⟨e, he, hrec⟩
    exact ⟨_, ⟨e, he, rfl⟩, hrec⟩

theorem chainTrace_records_chain (cfg : Config) (o : Oracle) (e : String × ChainData)
    (rec : AuditReport) (h : rec ∈ (chainTrace cfg o e).records) : rec.chain = e.1 := by
  unfold chainTrace at h
  split at h
  · simp at h
  · exact fetchRounds_records_chain o e.1 e.2.rpcUrls.length maxRetries 0 rec h

theorem flatten_map_filter {α β : Type} (f : α → List β) (p : α → Bool) (l : List α)
    (h : ∀ e ∈ l, p e = false → f e = []) :
    ((l.filter p).map f).flatten = (l.map f).flatten := by
  induction l with
  | nil => rfl
  | cons a l ih =>
    have ihl := ih fun e he hf => h e (List.mem_cons_of_mem a he) hf
    by_cases hpa : p a
    · simp only [List.filter_cons, hpa, if_pos, List.map_cons, List.flatten_cons, ihl]
    · have ha := h a (List.mem_cons_self a l) (by simpa using hpa)
      simp only [List.filter_cons, hpa, List.map_cons, List.flatten_cons, ha,
        List.nil_append, ihl, Bool.false_eq_true, if_neg, not_false_eq_true]

/-! ## Claims -/

/-- C1: the claim that a bulk response whose five parallel arrays do not
all have equal addressable length is rejected with a format error, with
no record derived from it added, is false: on a payload with two
contract hashes but single-entry star/summary/auditor/timestamp arrays,
the fetch marks the endpoint successful and adds the record at index 0,
which is derived from the malformed response. -/
theorem C1_counterexample :
    mismatchedBulk.stars.length ≠ mismatchedBulk.contractHashes.length ∧
    (fetchChain oracleMismatch "monad" 1).success = true ∧
    (fetchChain oracleMismatch "monad" 1).records =
      [⟨"h0", 5, "s", "a", 7, "monad"⟩] := by
  refine ⟨by decide, ?_, ?_⟩ <;> rfl

/-- C1 (amended): a bulk response is rejected with the format error only
when it is null or its `contractHashes` field is not an array. When
`contractHashes` is an array, mismatched lengths are not rejected: the
endpoint is marked successful and exactly the records whose index is in
bounds of all five arrays are added; the contributions of all other
networks are unchanged, each depending only on its own responses. -/
theorem C1_amended (o : Oracle) (ck : String) (u n : Nat) (r : BulkResult)
    (hc : o.count ck 0 0 = .ok (n + 1)) (hb : o.bulk ck 0 0 = .ok r) :
    (fetchChain o ck (u + 1)).records =
      (List.range r.contractHashes.length).filterMap (recordAt ck r) ∧
    (fetchChain o ck (u + 1)).success = true ∧
    ∀ (o' : Oracle) (ck' : String), agreeOn o o' ck' →
      (fetchChain o' ck' (u + 1)).records = (fetchChain o ck' (u + 1)).records := by
  rw [fetchChain_first_ok o ck u n r hc hb]
  refine ⟨processResult_eq ck r, rfl, ?_⟩
  intro o' ck' hagree
  unfold fetchChain
  rw [fetchRounds_congr o o' ck' (u + 1) (fun rnd e => hagree rnd e) maxRetries 0]

/-- Witness for C1 (amended) at the concrete mismatched payload. -/
theorem C1_amended_witness :
    (fetchChain oracleMismatch "monad" 1).records =
      (List.range mismatchedBulk.contractHashes.length).filterMap
        (recordAt "monad" mismatchedBulk) ∧
    (fetchChain oracleMismatch "monad" 1).success = true ∧
    ∀ (o' : Oracle) (ck' : String), agreeOn oracleMismatch o' ck' →
      (fetchChain o' ck' 1).records = (fetchChain oracleMismatch ck' 1).records :=
  C1_amended oracleMismatch "monad" 0 1 mismatchedBulk rfl rfl

/-- C2: the claim that the total backoff wait over a fully failing
attempt equals `baseDelay * (2 + 4 + 8)` ms is false: on a network whose
every count query fails, the loop waits only between consecutive rounds
(never after the final round), so the total is
`baseDelay * (2 + 4) = 12000` ms, not 28000 ms. -/
theorem C2_counterexample :
    (fetchChain oracleAllErr "monad" 1).delays.sum = baseDelay * (2 + 4) ∧
    (fetchChain oracleAllErr "monad" 1).delays.sum ≠ baseDelay * (2 + 4 + 8) := by
  refine ⟨by rfl, by decide⟩

/-- C2 (amended): on a network where every endpoint fails in every
round, the fetch runs exactly 3 rounds (rounds 0, 1, 2, each over every
endpoint in order), contributes zero records, waits
`baseDelay * 2 ^ round` after each of the first two failed rounds and
does not wait after the last, so the total backoff is
`baseDelay * (2 + 4) = 12000` ms. -/
theorem C2_amended (o : Oracle) (ck : String) (u : Nat)
    (h : ∀ rnd e, o.count ck rnd e = .err) :
    fetchChain o ck u =
      ⟨[], (List.range u).map (Prod.mk 0) ++
          ((List.range u).map (Prod.mk 1) ++ (List.range u).map (Prod.mk 2)),
        [], [baseDelay * 2 ^ 1, baseDelay * 2 ^ 2], false⟩ ∧
    (fetchChain o ck u).delays.sum = baseDelay * (2 + 4) := by
  have hfe := fetchChain_all_err o ck u h
  rw [hfe]
  norm_num [baseDelay]

/-- Witness for C2 (amended) on a one-endpoint network that always fails. -/
theorem C2_amended_witness :
    fetchChain oracleAllErr "monad" 1 =
      ⟨[], (List.range 1).map (Prod.mk 0) ++
          ((List.range 1).map (Prod.mk 1) ++ (List.range 1).map (Prod.mk 2)),
        [], [baseDelay * 2 ^ 1, baseDelay * 2 ^ 2], false⟩ ∧
    (fetchChain oracleAllErr "monad" 1).delays.sum = baseDelay * (2 + 4) :=
  C2_amended oracleAllErr "monad" 1 fun _ _ => rfl

/-- C6: when an endpoint's count query returns zero (after any failed
count queries at earlier endpoints), the round is marked successful with
an empty contribution, no bulk fetch is ever issued, and no further
endpoint, retry round or backoff wait occurs for that network. -/
theorem C6_zero_count (o : Oracle) (ck : String) (u e : Nat) (he : e < u)
    (hpre : ∀ i < e, o.count ck 0 i = .err) (hc : o.count ck 0 e = .ok 0) :
    fetchChain o ck u = ⟨[], (List.range (e + 1)).map (Prod.mk 0), [], [], true⟩ := by
  have hsplit : List.range u =
      List.range e ++ e :: (List.range (u - (e + 1))).map (fun x => e + 1 + x) := by
    have : u = (e + 1) + (u - (e + 1)) := by omega
    rw [this, List.range_add, List.range_succ, List.append_assoc]
    simp
  have htr : tryRound o ck 0 (List.range u) = ⟨some [], List.range e ++ [e], []⟩ := by
    rw [hsplit]
    exact tryRound_zero o ck 0 (List.range e) e _
      (fun x hx => hpre x (List.mem_range.mp hx)) hc
  unfold fetchChain
  simp only [maxRetries]
  simp only [fetchRounds, htr]
  simp [List.range_succ]

/-- Witness for C6 on a two-endpoint network whose first endpoint fails
its count query and whose second answers zero. -/
theorem C6_zero_count_witness :
    fetchChain oracleZeroSecond "monad" 2 =
      ⟨[], (List.range 2).map (Prod.mk 0), [], [], true⟩ :=
  C6_zero_count oracleZeroSecond "monad" 2 1 (by decide)
    (fun i hi => by
      have h0 : i = 0 := by omega
      subst h0
      rfl) rfl

/-- C3: the aggregation always resolves to a (possibly empty) list — it
is a total function whose value is a permutation of the per-network
contributions — and the failure pattern of other networks never affects
one network's contribution: a configured network's records appear in the
result under any environment that agrees on that network's endpoints. -/
theorem C3_error_isolation (cfg : Config) (o o' : Oracle) (e : String × ChainData)
    (he : e ∈ cfg.chains) (hagree : agreeOn o o' e.1) :
    (fetchAllChainAudits cfg o).Perm (contributions cfg o).flatten ∧
    (chainTrace cfg o e).records = (chainTrace cfg o' e).records ∧
    ∀ rec ∈ (chainTrace cfg o e).records, rec ∈ fetchAllChainAudits cfg o := by
  refine ⟨sortAudits_perm _, ?_, ?_⟩
  · unfold chainTrace
    cases h : cfg.addresses e.1 with
    | none => rfl
    | some a =>
      unfold fetchChain
      rw [fetchRounds_congr o o' e.1 e.2.rpcUrls.length
        (fun rnd ep => hagree rnd ep) maxRetries 0]
  · intro rec hrec
    exact (mem_fetchAll_iff cfg o rec).mpr ⟨e, he, hrec⟩

/-- Witness for C3: the second chain of the two-chain configuration keeps
its records when the environment is replaced by one that fails
everywhere except on that chain. -/
theorem C3_error_isolation_witness :
    (fetchAllChainAudits cfgTwo oracleMismatch).Perm
      (contributions cfgTwo oracleMismatch).flatten ∧
    (chainTrace cfgTwo oracleMismatch ("monad", ⟨["u0"]⟩)).records =
      (chainTrace cfgTwo oracleMismatch ("monad", ⟨["u0"]⟩)).records ∧
    ∀ rec ∈ (chainTrace cfgTwo oracleMismatch ("monad", ⟨["u0"]⟩)).records,
      rec ∈ fetchAllChainAudits cfgTwo oracleMismatch :=
  C3_error_isolation cfgTwo oracleMismatch oracleMismatch ("monad", ⟨["u0"]⟩)
    (by decide) (fun _ _ => ⟨rfl, rfl⟩)

/-- C4: the aggregated result is a permutation of the concatenated
per-network contributions, globally sorted by descending timestamp: for
every pair of adjacent records the earlier one has a timestamp greater
than or equal to the later one. -/
theorem C4_sorted_desc (cfg : Config) (o : Oracle) :
    (fetchAllChainAudits cfg o).Sorted auditGe ∧
    (fetchAllChainAudits cfg o).Chain' (fun a b => b.timestamp ≤ a.timestamp) ∧
    (fetchAllChainAudits cfg o).Perm (contributions cfg o).flatten :=
  ⟨sortAudits_sorted _, List.Pairwise.chain' (sortAudits_sorted _), sortAudits_perm _⟩

/-- C5: for a network whose first endpoint succeeds on the first attempt
with a 120-record payload of equal-length arrays, the contribution is
exactly the processed records of that one call — one attempt, no
backoff — processed in 3 batches starting at 0, 50, 100 of sizes
50, 50, 20, with all 120 records present and attributed to the network. -/
theorem C5_first_endpoint_120 (o : Oracle) (ck : String) (u n : Nat) (r : BulkResult)
    (hc : o.count ck 0 0 = .ok (n + 1)) (hb : o.bulk ck 0 0 = .ok r)
    (h1 : r.contractHashes.length = 120) (h2 : r.stars.length = 120)
    (h3 : r.summaries.length = 120) (h4 : r.auditors.length = 120)
    (h5 : r.timestamps.length = 120) :
    fetchChain o ck (u + 1) = ⟨processResult ck r, [(0, 0)], [(0, 0)], [], true⟩ ∧
    (processChunks ck r).1 = [0, 50, 100] ∧
    ((processChunks ck r).1.map
      fun i => ((r.contractHashes.drop i).take batchSize).length) = [50, 50, 20] ∧
    (fetchChain o ck (u + 1)).records.length = 120 ∧
    ∀ rec ∈ (fetchChain o ck (u + 1)).records, rec.chain = ck := by
  have hfetch := fetchChain_first_ok o ck u n r hc hb
  have hstarts : (processChunks ck r).1 = [0, 50, 100] := by
    rw [processChunks_fst, h1]
    decide
  have hmap : processResult ck r =
      (List.range 120).map fun i =>
        ({ contractHash := r.contractHashes.getD i ""
           stars := r.stars.getD i 0
           summary := r.summaries.getD i ""
           auditor := r.auditors.getD i ""
           timestamp := r.timestamps.getD i 0
           chain := ck } : AuditReport) := by
    rw [processResult_eq, h1]
    rw [List.filterMap_eq_map_iff_forall_eq_some.mpr ?_]
    intro i hi
    have hi120 : i < 120 := List.mem_range.mp hi
    unfold recordAt
    rw [if_pos ⟨by omega, by omega, by omega, by omega⟩]
  refine ⟨hfetch, hstarts, ?_, ?_, ?_⟩
  · rw [hstarts]
    simp [length_batch, h1, batchSize]
  · rw [hfetch]
    simp only [hmap, List.length_map, List.length_range]
  · intro rec hrec
    rw [hfetch] at hrec
    exact processResult_chain ck r rec hrec

/-- Witness for C5 at the concrete 120-record payload. -/
theorem C5_first_endpoint_120_witness :
    fetchChain oracle120 "monad" 3 =
      ⟨processResult "monad" bulk120, [(0, 0)], [(0, 0)], [], true⟩ ∧
    (processChunks "monad" bulk120).1 = [0, 50, 100] ∧
    ((processChunks "monad" bulk120).1.map
      fun i => ((bulk120.contractHashes.drop i).take batchSize).length) = [50, 50, 20] ∧
    (fetchChain oracle120 "monad" 3).records.length = 120 ∧
    ∀ rec ∈ (fetchChain oracle120 "monad" 3).records, rec.chain = "monad" :=
  C5_first_endpoint_120 oracle120 "monad" 2 119 bulk120 rfl rfl
    (by decide) (by decide) (by decide) (by decide) (by decide)

/-- C7: every record in the aggregated result carries the key of the
network it was fetched from: it belongs to the contribution of a
configured chain entry whose key equals the record's `chain` field, so
attribution is preserved through merging and sorting. -/
theorem C7_attribution (cfg : Config) (o : Oracle) (rec : AuditReport)
    (h : rec ∈ fetchAllChainAudits cfg o) :
    ∃ e ∈ cfg.chains, rec.chain = e.1 ∧ rec ∈ (chainTrace cfg o e).records := by
  obtain ⟨e, he, hrec⟩ := (mem_fetchAll_iff cfg o rec).mp h
  exact ⟨e, he, chainTrace_records_chain cfg o e rec hrec, hrec⟩

/-- Witness for C7 at the two-chain configuration. -/
theorem C7_attribution_witness :
    ∃ e ∈ cfgTwo.chains,
      (⟨"h0", 5, "s", "a", 7, "monad"⟩ : AuditReport).chain = e.1 ∧
      (⟨"h0", 5, "s", "a", 7, "monad"⟩ : AuditReport) ∈
        (chainTrace cfgTwo oracleMismatch e).records :=
  C7_attribution cfgTwo oracleMismatch ⟨"h0", 5, "s", "a", 7, "monad"⟩ (by decide)

/-- C8: the claim that a supplied search identity retains exactly the
records whose auditor matches it case-insensitively is false: a record
whose auditor neither contains nor equals the search text is retained
because its contract hash contains it. -/
theorem C8_counterexample :
    getFilteredReports 1000 (searchOnly "ABC") [reportC8] = [reportC8] ∧
    strContains (toLowerStr reportC8.auditor) (toLowerStr (searchOnly "ABC").search) = false ∧
    toLowerStr reportC8.auditor ≠ toLowerStr (searchOnly "ABC").search := by
  decide

/-- C8 (amended): with the other filters disabled, a non-empty search
string retains exactly those records whose contract hash or auditor
contains the search text case-insensitively, and the retained records
keep their relative order (the output is a sublist of the input). -/
theorem C8_amended (now : Int) (reports : List AuditReport) (s : String) (hs : s ≠ "") :
    getFilteredReports now (searchOnly s) reports =
      reports.filter (fun r => strContains (toLowerStr r.contractHash) (toLowerStr s) ||
        strContains (toLowerStr r.auditor) (toLowerStr s)) ∧
    (getFilteredReports now (searchOnly s) reports).Sublist reports := by
  constructor
  · unfold getFilteredReports
    apply List.filter_congr
    intro r _
    unfold keepReport searchOnly
    by_cases hA : strContains (toLowerStr r.contractHash) (toLowerStr s) <;>
      by_cases hB : strContains (toLowerStr r.auditor) (toLowerStr s) <;>
        simp [hs, hA, hB]
  · exact List.filter_sublist _

/-- Witness for C8 (amended) at the concrete report and search text. -/
theorem C8_amended_witness :
    getFilteredReports 1000 (searchOnly "ABC") [reportC8] =
      [reportC8].filter (fun r => strContains (toLowerStr r.contractHash) (toLowerStr "ABC") ||
        strContains (toLowerStr r.auditor) (toLowerStr "ABC")) ∧
    (getFilteredReports 1000 (searchOnly "ABC") [reportC8]).Sublist [reportC8] :=
  C8_amended 1000 [reportC8] "ABC" (by decide)

/-- C9: the per-chain fetch terminates after at most
`maxRetries * numUrls` endpoint attempts; attempts happen strictly one
after another (chronologically ordered by round, then endpoint, in
descriptor order); every attempt lies within the 3 rounds and the
endpoint list; and each attempt's network wait is bounded by the 10 s
count timeout plus the 20 s bulk timeout. -/
theorem C9_bounded_sequential (o : Oracle) (ck : String) (u : Nat) :
    (fetchChain o ck u).attempts.length ≤ maxRetries * u ∧
    (fetchChain o ck u).attempts.Pairwise attLt ∧
    (∀ p ∈ (fetchChain o ck u).attempts, p.1 < maxRetries ∧ p.2 < u) ∧
    ∀ p ∈ (fetchChain o ck u).attempts,
      attemptNetworkTime o ck p.1 p.2 ≤ countTimeout + bulkTimeout := by
  refine ⟨fetchRounds_attempts_length o ck u maxRetries 0,
    fetchRounds_attempts_pairwise o ck u maxRetries 0, ?_, ?_⟩
  · intro p hp
    have h := fetchRounds_attempts_mem o ck u maxRetries 0 p hp
    exact ⟨by omega, h.2.2⟩
  · intro p hp
    unfold attemptNetworkTime
    have h1 := Nat.min_le_right (o.countDur ck p.1 p.2) countTimeout
    have h2 : (match o.count ck p.1 p.2 with
        | .ok (_ + 1) => min (o.bulkDur ck p.1 p.2) bulkTimeout
        | _ => 0) ≤ bulkTimeout := by
      cases hco : o.count ck p.1 p.2 with
      | ok m =>
        cases m with
        | zero => simp
        | succ m => exact Nat.min_le_right _ _
      | err => simp
    omega

/-- Witness for C9 on a concrete two-endpoint chain. -/
theorem C9_bounded_sequential_witness :
    (fetchChain oracleAllErr "monad" 2).attempts.length ≤ maxRetries * 2 ∧
    (fetchChain oracleAllErr "monad" 2).attempts.Pairwise attLt ∧
    (∀ p ∈ (fetchChain oracleAllErr "monad" 2).attempts,
      p.1 < maxRetries ∧ p.2 < 2) ∧
    ∀ p ∈ (fetchChain oracleAllErr "monad" 2).attempts,
      attemptNetworkTime oracleAllErr "monad" p.1 p.2 ≤ countTimeout + bulkTimeout :=
  C9_bounded_sequential oracleAllErr "monad" 2

/-- C10: a configured network whose registry address is absent is
skipped without any endpoint attempt, bulk call, backoff wait or record,
and the aggregate equals the aggregate of the configuration with that
network's entries removed — all other networks are processed normally. -/
theorem C10_skip_missing_address (cfg : Config) (o : Oracle) (k : String) (cd : ChainData)
    (hk : cfg.addresses k = none) :
    chainTrace cfg o (k, cd) = ⟨[], [], [], [], false⟩ ∧
    fetchAllChainAudits cfg o =
      fetchAllChainAudits ⟨cfg.chains.filter (fun e => e.1 != k), cfg.addresses⟩ o := by
  constructor
  · unfold chainTrace
    simp [hk]
  · unfold fetchAllChainAudits
    congr 1
    unfold contributions
    have hzero : ∀ e ∈ cfg.chains, (e.1 != k) = false →
        (chainTrace cfg o e).records = [] := by
      intro e _ hek
      have : e.1 = k := by simpa using hek
      unfold chainTrace
      rw [this, hk]
    exact (flatten_map_filter _ _ cfg.chains hzero).symm

/-- Witness for C10: the addressless second chain of the two-chain
configuration. -/
theorem C10_skip_missing_address_witness :
    chainTrace cfgTwo oracleMismatch ("devnet", ⟨["u0", "u1"]⟩) =
      ⟨[], [], [], [], false⟩ ∧
    fetchAllChainAudits cfgTwo oracleMismatch =
      fetchAllChainAudits
        ⟨cfgTwo.chains.filter (fun e => e.1 != "devnet"), cfgTwo.addresses⟩
        oracleMismatch :=
  C10_skip_missing_address cfgTwo oracleMismatch "devnet" ⟨["u0", "u1"]⟩ (by decide)
